import Mathlib

/-! SparseMemMap (osmium/index/map/sparse_mem_map.hpp)

A shallow embedding of `osmium::index::map::SparseMemMap<TId, TValue>` and the
properties of its operations.

* `TId` is an unsigned integral key type; keys are natural numbers in their
  numeric order (no arithmetic is ever done on a key).
* `TValue` is an arbitrary value type `V`.
* `std::map<TId, TValue>` is the ordered unique-key container of the C++
  standard library: its contract is embedded as a list of nodes kept in
  strictly ascending key order (the in-order traversal of the tree).
* `size_t` arithmetic is arithmetic modulo `2 ^ size_t_bits`.
-/

namespace osmium.index.map

/-- Identifier type `TId` of the class template. -/
abbrev TId := Nat

/-! ## The standard container `std::map<TId, TValue>` -/

/-- Strictly ascending key order of a node sequence. -/
def KeysAscending {V : Type} (l : List (TId × V)) : Prop :=
  List.Pairwise (fun a b => a.1 < b.1) l

/-- Walk of `find`: the mapped value of the node whose key is `id`, `none` for `end()`. -/
def findNodes {V : Type} : List (TId × V) → TId → Option V
  | [], _ => none
  | (k, w) :: rest, id => if k = id then some w else findNodes rest id

/-- Walk of `m[id] = value`: the node with key `id` gets the value, and is
created at its place in the key order when there is none. -/
def assignNodes {V : Type} : List (TId × V) → TId → V → List (TId × V)
  | [], id, v => [(id, v)]
  | (k, w) :: rest, id, v =>
    if id < k then (id, v) :: (k, w) :: rest
    else if id = k then (k, v) :: rest
    else (k, w) :: assignNodes rest id v

/-- The container `std::map<TId, TValue>`: its nodes in iteration order, which
is strictly ascending key order (unique keys). -/
structure StdMap (V : Type) where
  nodes : List (TId × V)
  ordered : KeysAscending nodes

namespace StdMap

/-- A default-constructed map. -/
def empty {V : Type} : StdMap V := ⟨[], List.Pairwise.nil⟩

/-- Member `find(id)`: `none` stands for the iterator `end()`, `some w` for an
iterator whose `second` is `w`. -/
def find {V : Type} (m : StdMap V) (id : TId) : Option V := findNodes m.nodes id

/-- Statement `m[id] = value`. -/
def assign {V : Type} (m : StdMap V) (id : TId) (value : V) : StdMap V :=
  ⟨assignNodes m.nodes id value, by
    have hmem : ∀ (l : List (TId × V)) (p : TId × V),
        p ∈ assignNodes l id value → p = (id, value) ∨ p ∈ l := by
      intro l
      induction l with
      | nil => intro p hp; simpa [assignNodes] using hp
      | cons hd tl ih =>
        intro p hp
        obtain ⟨k, w⟩ := hd
        unfold assignNodes at hp
        by_cases h1 : id < k
        · rw [if_pos h1] at hp
          exact (List.mem_cons.1 hp).imp (fun h => h) (fun h => h)
        · rw [if_neg h1] at hp
          by_cases h2 : id = k
          · rw [if_pos h2] at hp
            rcases List.mem_cons.1 hp with h | h
            · exact Or.inl (by rw [h, h2])
            · exact Or.inr (List.mem_cons_of_mem _ h)
          · rw [if_neg h2] at hp
            rcases List.mem_cons.1 hp with h | h
            · exact Or.inr (by rw [h]; exact List.mem_cons_self _ _)
            · exact (ih p h).imp (fun h => h) (List.mem_cons_of_mem _)
    have hasc : ∀ l : List (TId × V), KeysAscending l →
        KeysAscending (assignNodes l id value) := by
      intro l
      induction l with
      | nil => intro _; simp [assignNodes, KeysAscending]
      | cons hd tl ih =>
        intro hl
        obtain ⟨k, w⟩ := hd
        have hc := List.pairwise_cons.1 hl
        unfold assignNodes
        by_cases h1 : id < k
        · rw [if_pos h1]
          refine List.pairwise_cons.2 ⟨?_, hl⟩
          intro p hp
          rcases List.mem_cons.1 hp with h | h
          · rw [h]; exact h1
          · exact lt_trans h1 (hc.1 p h)
        · rw [if_neg h1]
          by_cases h2 : id = k
          · rw [if_pos h2]
            exact List.pairwise_cons.2 ⟨fun p hp => hc.1 p hp, hc.2⟩
          · rw [if_neg h2]
            refine List.pairwise_cons.2 ⟨?_, ih hc.2⟩
            intro p hp
            rcases hmem tl p hp with h | h
            · rw [h]
              exact lt_of_le_of_ne (not_lt.1 h1) (Ne.symm h2)
            · exact hc.1 p h
    exact hasc m.nodes m.ordered⟩

/-- Member `size()`. -/
def size {V : Type} (m : StdMap V) : Nat := m.nodes.length

/-- Member `clear()`. -/
def clear {V : Type} (_m : StdMap V) : StdMap V := empty

/-- The range `cbegin() .. cend()`. -/
def range {V : Type} (m : StdMap V) : List (TId × V) := m.nodes

end StdMap

/-! ## Constants of the instantiation and of the platform -/

/-- The `sizeof` values and the width of `size_t` that the class template
sees for one instantiation on one platform. -/
structure Sizes where
  /-- Number of bits of `size_t`. -/
  size_t_bits : Nat
  /-- Value of `sizeof(TId)`. -/
  sizeof_TId : Nat
  /-- Value of `sizeof(TValue)`. -/
  sizeof_TValue : Nat
  /-- Value of `sizeof(void*)`. -/
  sizeof_voidp : Nat
  /-- Value of `sizeof(std::map<TId, TValue>::value_type)`, the pair type. -/
  sizeof_value_type : Nat
deriving DecidableEq, Repr

/-- Reduction of a natural number to a `size_t`. -/
def Sizes.wrap (S : Sizes) (n : Nat) : Nat := n % 2 ^ S.size_t_bits

/-- The 64-bit instantiation registered by the header:
`SparseMemMap<unsigned_object_id_type, Location>` with 8-byte ids, 8-byte
locations, 8-byte pointers and a 16-byte pair. -/
def Sizes.location64 : Sizes :=
  { size_t_bits := 64, sizeof_TId := 8, sizeof_TValue := 8, sizeof_voidp := 8,
    sizeof_value_type := 16 }

/-- A 64-bit instantiation with 8-byte ids and 4-byte values: the pair
`std::pair<const uint64_t, uint32_t>` is aligned to 8 bytes and takes 16. -/
def Sizes.id64_value32 : Sizes :=
  { size_t_bits := 64, sizeof_TId := 8, sizeof_TValue := 4, sizeof_voidp := 8,
    sizeof_value_type := 16 }

/-! ## The class `SparseMemMap` -/

/-- Modelled from the spec: the exception type `osmium::not_found` (declared in
osmium/index/index.hpp), an error that carries the identifier that was looked up. -/
structure not_found where
  id : TId
deriving DecidableEq, Repr

/-- The class `SparseMemMap<TId, TValue>`: its only data member. -/
structure SparseMemMap (V : Type) where
  m_elements : StdMap V

namespace SparseMemMap

/-- The constant `element_size = sizeof(TId) + sizeof(TValue) + sizeof(void*) * 4`,
a `size_t`. -/
def element_size (S : Sizes) : Nat :=
  S.wrap (S.sizeof_TId + S.sizeof_TValue + S.sizeof_voidp * 4)

/-- The defaulted constructor `SparseMemMap()`. -/
def new {V : Type} : SparseMemMap V := ⟨StdMap.empty⟩

/-- Member `set`: `m_elements[id] = value`. -/
def set {V : Type} (m : SparseMemMap V) (id : TId) (value : V) : SparseMemMap V :=
  ⟨m.m_elements.assign id value⟩

/-- Member `get`: throws `not_found{id}` when `find` gives `end()`. -/
def get {V : Type} (m : SparseMemMap V) (id : TId) : Except not_found V :=
  match m.m_elements.find id with
  | none => .error ⟨id⟩
  | some second => .ok second

/-- Member `get_noexcept`; `empty_value` is the result of
`osmium::index::empty_value<TValue>()`. -/
def get_noexcept {V : Type} (empty_value : V) (m : SparseMemMap V) (id : TId) : V :=
  match m.m_elements.find id with
  | none => empty_value
  | some second => second

/-- Member `size`. -/
def size {V : Type} (m : SparseMemMap V) : Nat := m.m_elements.size

/-- Member `used_memory`: `element_size * m_elements.size()` in `size_t`. -/
def used_memory {V : Type} (S : Sizes) (m : SparseMemMap V) : Nat :=
  S.wrap (element_size S * m.m_elements.size)

/-- Member `clear`. -/
def clear {V : Type} (m : SparseMemMap V) : SparseMemMap V := ⟨m.m_elements.clear⟩

/-- The vector `v` of `dump_as_list` after `std::copy` from `cbegin()` to
`cend()` through a back inserter. -/
def dump_vector {V : Type} (m : SparseMemMap V) : List (TId × V) :=
  m.m_elements.range.foldl (fun v t => v ++ [t]) []

/-- Member `dump_as_list`. The primitive `osmium::io::detail::reliable_write`
is the parameter `reliable_write fd data size`: it gets the descriptor, the
contents of the memory at `v.data()` (the records of `v`, in order) and the
byte count `sizeof(t) * v.size()`, and either returns or throws an `E`.
The result is what the call returns or throws, with the index afterwards. -/
def dump_as_list {V E : Type} (S : Sizes)
    (reliable_write : Int → List (TId × V) → Nat → Except E Unit)
    (m : SparseMemMap V) (fd : Int) : Except E Unit × SparseMemMap V :=
  let v := dump_vector m
  (reliable_write fd v (S.wrap (S.sizeof_value_type * v.length)), m)

/-- A sequence of `set` calls, first call first. -/
def set_all {V : Type} (m : SparseMemMap V) (calls : List (TId × V)) : SparseMemMap V :=
  calls.foldl (fun acc c => acc.set c.1 c.2) m

/-- A call of the `const` member `get` as a transition: what the call returns
or throws, with the index afterwards. The body only calls `find` on the
`const` member `m_elements`, which yields an iterator and no new container. -/
def get_step {V : Type} (m : SparseMemMap V) (id : TId) :
    Except not_found V × SparseMemMap V :=
  match m.m_elements.find id with
  | none => (.error ⟨id⟩, m)
  | some second => (.ok second, m)

/-- A call of the `const noexcept` member `get_noexcept` as a transition: the
value returned, with the index afterwards. -/
def get_noexcept_step {V : Type} (empty_value : V) (m : SparseMemMap V) (id : TId) :
    V × SparseMemMap V :=
  match m.m_elements.find id with
  | none => (empty_value, m)
  | some second => (second, m)

end SparseMemMap

/-- One mutating call on an index. -/
inductive Call (V : Type) where
  | set (id : TId) (value : V)
  | clear

/-- Effect of one mutating call. -/
def Call.apply {V : Type} (m : SparseMemMap V) : Call V → SparseMemMap V
  | .set id value => m.set id value
  | .clear => m.clear

/-- Effect of a sequence of mutating calls, first call first. -/
def run_calls {V : Type} (m : SparseMemMap V) (calls : List (Call V)) : SparseMemMap V :=
  calls.foldl Call.apply m

/-! ## Facts about the container walks -/

theorem findNodes_assignNodes_same {V : Type} (l : List (TId × V)) (id : TId) (v : V) :
    findNodes (assignNodes l id v) id = some v := by
  induction l with
  | nil => simp [assignNodes, findNodes]
  | cons hd tl ih =>
    obtain ⟨k, w⟩ := hd
    unfold assignNodes
    by_cases h1 : id < k
    · rw [if_pos h1]; simp [findNodes]
    · rw [if_neg h1]
      by_cases h2 : id = k
      · rw [if_pos h2]; simp [findNodes, h2]
      · rw [if_neg h2]
        unfold findNodes
        rw [if_neg (Ne.symm h2)]
        exact ih

theorem findNodes_assignNodes_other {V : Type} (l : List (TId × V)) (id k : TId) (v : V)
    (hk : k ≠ id) : findNodes (assignNodes l id v) k = findNodes l k := by
  induction l with
  | nil => simp [assignNodes, findNodes, Ne.symm hk]
  | cons hd tl ih =>
    obtain ⟨k1, w⟩ := hd
    unfold assignNodes
    by_cases h1 : id < k1
    · rw [if_pos h1]
      conv_lhs => unfold findNodes
      rw [if_neg (Ne.symm hk)]
    · rw [if_neg h1]
      by_cases h2 : id = k1
      · rw [if_pos h2]
        unfold findNodes
        have h3 : ¬ k1 = k := fun h => hk (by rw [h2, h])
        rw [if_neg h3, if_neg h3]
      · rw [if_neg h2]
        unfold findNodes
        by_cases h3 : k1 = k
        · rw [if_pos h3, if_pos h3]
        · rw [if_neg h3, if_neg h3]
          exact ih

theorem findNodes_eq_none_iff {V : Type} (l : List (TId × V)) (id : TId) :
    findNodes l id = none ↔ id ∉ l.map Prod.fst := by
  induction l with
  | nil => simp [findNodes]
  | cons hd tl ih =>
    obtain ⟨k, w⟩ := hd
    unfold findNodes
    by_cases h : k = id
    · rw [if_pos h]; simp [h]
    · rw [if_neg h, ih]
      simp [Ne.symm h]

theorem mem_of_findNodes_eq_some {V : Type} (l : List (TId × V)) (id : TId) (v : V)
    (h : findNodes l id = some v) : (id, v) ∈ l := by
  induction l with
  | nil => simp [findNodes] at h
  | cons hd tl ih =>
    obtain ⟨k, w⟩ := hd
    unfold findNodes at h
    by_cases h1 : k = id
    · rw [if_pos h1] at h
      have h2 : w = v := Option.some.inj h
      rw [h1, h2]
      exact List.mem_cons_self _ _
    · rw [if_neg h1] at h
      exact List.mem_cons_of_mem _ (ih h)

theorem findNodes_eq_some_of_mem {V : Type} (l : List (TId × V)) (id : TId) (v : V)
    (hl : KeysAscending l) (h : (id, v) ∈ l) : findNodes l id = some v := by
  induction l with
  | nil => simp at h
  | cons hd tl ih =>
    obtain ⟨k, w⟩ := hd
    have hc := List.pairwise_cons.1 hl
    unfold findNodes
    rcases List.mem_cons.1 h with h1 | h1
    · have hk : k = id := (congrArg Prod.fst h1).symm
      have hw : w = v := (congrArg Prod.snd h1).symm
      rw [if_pos hk, hw]
    · have hlt : k < id := hc.1 (id, v) h1
      rw [if_neg (Nat.ne_of_lt hlt)]
      exact ih hc.2 h1

theorem keys_nodup_of_ascending {V : Type} (l : List (TId × V)) (hl : KeysAscending l) :
    (l.map Prod.fst).Nodup := by
  unfold List.Nodup
  rw [List.pairwise_map]
  exact List.Pairwise.imp (fun h => Nat.ne_of_lt h) hl

theorem mem_keys_assignNodes {V : Type} (l : List (TId × V)) (id k : TId) (v : V) :
    k ∈ (assignNodes l id v).map Prod.fst ↔ k = id ∨ k ∈ l.map Prod.fst := by
  rw [← not_iff_not, ← findNodes_eq_none_iff]
  by_cases hk : k = id
  · rw [hk, findNodes_assignNodes_same]
    simp
  · rw [findNodes_assignNodes_other l id k v hk, findNodes_eq_none_iff]
    simp [hk]

theorem length_assignNodes_of_mem {V : Type} (l : List (TId × V)) (id : TId) (v : V)
    (hl : KeysAscending l) (h : id ∈ l.map Prod.fst) :
    (assignNodes l id v).length = l.length := by
  induction l with
  | nil => simp at h
  | cons hd tl ih =>
    obtain ⟨k, w⟩ := hd
    have hc := List.pairwise_cons.1 hl
    unfold assignNodes
    by_cases h1 : id < k
    · exfalso
      rw [List.map_cons, List.mem_cons] at h
      rcases h with h | h
      · exact absurd h (Nat.ne_of_lt h1)
      · obtain ⟨p, hp, hpk⟩ := List.mem_map.1 h
        have := hc.1 p hp
        rw [hpk] at this
        exact absurd (lt_trans h1 this) (lt_irrefl _)
    · rw [if_neg h1]
      by_cases h2 : id = k
      · rw [if_pos h2]; rfl
      · rw [if_neg h2]
        rw [List.map_cons, List.mem_cons] at h
        rcases h with h | h
        · exact absurd h h2
        · rw [List.length_cons, List.length_cons, ih hc.2 h]

theorem length_assignNodes_of_not_mem {V : Type} (l : List (TId × V)) (id : TId) (v : V)
    (h : id ∉ l.map Prod.fst) : (assignNodes l id v).length = l.length + 1 := by
  induction l with
  | nil => simp [assignNodes]
  | cons hd tl ih =>
    obtain ⟨k, w⟩ := hd
    rw [List.map_cons, List.mem_cons, not_or] at h
    unfold assignNodes
    by_cases h1 : id < k
    · rw [if_pos h1]; rfl
    · rw [if_neg h1, if_neg h.1, List.length_cons, List.length_cons, ih h.2]

theorem foldl_push_back {α : Type} (l acc : List α) :
    l.foldl (fun v t => v ++ [t]) acc = acc ++ l := by
  induction l generalizing acc with
  | nil => simp
  | cons a tl ih => rw [List.foldl_cons, ih, List.append_assoc, List.singleton_append]

/-! ## Facts about the member functions -/

namespace SparseMemMap

theorem get_set_same {V : Type} (m : SparseMemMap V) (id : TId) (v : V) :
    (m.set id v).get id = .ok v := by
  simp [get, set, StdMap.find, StdMap.assign, findNodes_assignNodes_same]

theorem get_set_other {V : Type} (m : SparseMemMap V) (id k : TId) (v : V) (hk : k ≠ id) :
    (m.set id v).get k = m.get k := by
  simp [get, set, StdMap.find, StdMap.assign, findNodes_assignNodes_other _ _ _ _ hk]

theorem get_noexcept_set_same {V : Type} (e : V) (m : SparseMemMap V) (id : TId) (v : V) :
    (m.set id v).get_noexcept e id = v := by
  simp [get_noexcept, set, StdMap.find, StdMap.assign, findNodes_assignNodes_same]

theorem get_noexcept_set_other {V : Type} (e : V) (m : SparseMemMap V) (id k : TId) (v : V)
    (hk : k ≠ id) : (m.set id v).get_noexcept e k = m.get_noexcept e k := by
  simp [get_noexcept, set, StdMap.find, StdMap.assign, findNodes_assignNodes_other _ _ _ _ hk]

theorem set_all_append {V : Type} (m : SparseMemMap V) (l : List (TId × V)) (c : TId × V) :
    m.set_all (l ++ [c]) = (m.set_all l).set c.1 c.2 := by
  simp [set_all, List.foldl_append]

theorem mem_keys_set {V : Type} (m : SparseMemMap V) (id k : TId) (v : V) :
    k ∈ (m.set id v).m_elements.nodes.map Prod.fst ↔
      k = id ∨ k ∈ m.m_elements.nodes.map Prod.fst :=
  mem_keys_assignNodes m.m_elements.nodes id k v

theorem mem_keys_set_all {V : Type} (calls : List (TId × V)) (m : SparseMemMap V) (k : TId) :
    k ∈ (m.set_all calls).m_elements.nodes.map Prod.fst ↔
      k ∈ m.m_elements.nodes.map Prod.fst ∨ k ∈ calls.map Prod.fst := by
  induction calls generalizing m with
  | nil => simp [set_all]
  | cons c tl ih =>
    have h : m.set_all (c :: tl) = (m.set c.1 c.2).set_all tl := rfl
    rw [h, ih, mem_keys_set, List.map_cons, List.mem_cons]
    constructor
    · rintro ((h1 | h1) | h1)
      · exact Or.inr (Or.inl h1)
      · exact Or.inl h1
      · exact Or.inr (Or.inr h1)
    · rintro (h1 | h1 | h1)
      · exact Or.inl (Or.inr h1)
      · exact Or.inl (Or.inl h1)
      · exact Or.inr h1

theorem size_eq_card_keys {V : Type} (m : SparseMemMap V) :
    m.size = (m.m_elements.nodes.map Prod.fst).toFinset.card := by
  rw [List.toFinset_card_of_nodup (keys_nodup_of_ascending _ m.m_elements.ordered)]
  simp [size, StdMap.size]

theorem size_set_of_mem {V : Type} (m : SparseMemMap V) (id : TId) (v : V)
    (h : id ∈ m.m_elements.nodes.map Prod.fst) : (m.set id v).size = m.size :=
  length_assignNodes_of_mem m.m_elements.nodes id v m.m_elements.ordered h

theorem size_set_of_not_mem {V : Type} (m : SparseMemMap V) (id : TId) (v : V)
    (h : id ∉ m.m_elements.nodes.map Prod.fst) : (m.set id v).size = m.size + 1 :=
  length_assignNodes_of_not_mem m.m_elements.nodes id v h

theorem size_set_all_of_mem {V : Type} (more : List (TId × V)) (m : SparseMemMap V)
    (h : ∀ c ∈ more, c.1 ∈ m.m_elements.nodes.map Prod.fst) :
    (m.set_all more).size = m.size := by
  induction more generalizing m with
  | nil => rfl
  | cons c tl ih =>
    have hs : m.set_all (c :: tl) = (m.set c.1 c.2).set_all tl := rfl
    rw [hs, ih, size_set_of_mem m c.1 c.2 (h c (List.mem_cons_self _ _))]
    intro d hd
    exact (mem_keys_set m c.1 d.1 c.2).2 (Or.inr (h d (List.mem_cons_of_mem _ hd)))

theorem mem_keys_run_calls {V : Type} (calls : List (Call V)) (m : SparseMemMap V) (k : TId)
    (h : k ∈ (run_calls m calls).m_elements.nodes.map Prod.fst) :
    k ∈ m.m_elements.nodes.map Prod.fst ∨ ∃ v, Call.set k v ∈ calls := by
  induction calls generalizing m with
  | nil => exact Or.inl h
  | cons c tl ih =>
    have hs : run_calls m (c :: tl) = run_calls (Call.apply m c) tl := rfl
    rw [hs] at h
    rcases ih _ h with h1 | ⟨v, hv⟩
    · cases c with
      | set id value =>
        rcases (mem_keys_set m id k value).1 h1 with h2 | h2
        · exact Or.inr ⟨value, by rw [h2]; exact List.mem_cons_self _ _⟩
        · exact Or.inl h2
      | clear => simp [Call.apply, clear, StdMap.clear, StdMap.empty] at h1
    · exact Or.inr ⟨v, List.mem_cons_of_mem _ hv⟩

theorem get_eq_error_iff {V : Type} (m : SparseMemMap V) (id : TId) (e : not_found) :
    m.get id = .error e ↔ e = ⟨id⟩ ∧ id ∉ m.m_elements.nodes.map Prod.fst := by
  rw [← findNodes_eq_none_iff]
  unfold get StdMap.find
  cases findNodes m.m_elements.nodes id with
  | none =>
    simp only [and_true]
    constructor
    · intro h; injection h with h; exact h.symm
    · intro h; rw [h]
  | some w => simp

theorem get_eq_ok_iff {V : Type} (m : SparseMemMap V) (id : TId) (v : V) :
    m.get id = .ok v ↔ (id, v) ∈ m.m_elements.range := by
  unfold get StdMap.find StdMap.range
  constructor
  · intro h
    apply mem_of_findNodes_eq_some
    cases hf : findNodes m.m_elements.nodes id with
    | none => rw [hf] at h; simp at h
    | some w => rw [hf] at h; injection h with h; rw [h]
  · intro h
    rw [findNodes_eq_some_of_mem _ id v m.m_elements.ordered h]

theorem not_mem_keys_iff {V : Type} (m : SparseMemMap V) (id : TId) :
    id ∉ m.m_elements.nodes.map Prod.fst ↔ ¬ ∃ v, (id, v) ∈ m.m_elements.range := by
  unfold StdMap.range
  simp

end SparseMemMap

theorem SparseMemMap.dump_vector_eq_range {V : Type} (m : SparseMemMap V) :
    m.dump_vector = m.m_elements.range := by
  unfold SparseMemMap.dump_vector
  rw [foldl_push_back, List.nil_append]

theorem assignNodes_append_last {V : Type} (acc : List (TId × V)) (id : TId) (v : V)
    (h : ∀ p ∈ acc, p.1 < id) : assignNodes acc id v = acc ++ [(id, v)] := by
  induction acc with
  | nil => rfl
  | cons hd tl ih =>
    obtain ⟨k, w⟩ := hd
    have hk : k < id := h (k, w) (List.mem_cons_self _ _)
    unfold assignNodes
    rw [if_neg (Nat.lt_asymm hk), if_neg (Nat.ne_of_gt hk),
      ih (fun p hp => h p (List.mem_cons_of_mem _ hp))]
    rfl

theorem SparseMemMap.ext_nodes {V : Type} (a b : SparseMemMap V)
    (h : a.m_elements.nodes = b.m_elements.nodes) : a = b := by
  obtain ⟨⟨na, ha⟩⟩ := a
  obtain ⟨⟨nb, hb⟩⟩ := b
  simp only at h
  subst h
  rfl

theorem SparseMemMap.nodes_set_all_ascending {V : Type} (l : List (TId × V))
    (m : SparseMemMap V) (h : KeysAscending (m.m_elements.nodes ++ l)) :
    (m.set_all l).m_elements.nodes = m.m_elements.nodes ++ l := by
  induction l generalizing m with
  | nil => simp [SparseMemMap.set_all]
  | cons c tl ih =>
    have hs : m.set_all (c :: tl) = (m.set c.1 c.2).set_all tl := rfl
    have hn : (m.set c.1 c.2).m_elements.nodes = m.m_elements.nodes ++ [c] := by
      show assignNodes m.m_elements.nodes c.1 c.2 = _
      apply assignNodes_append_last
      intro p hp
      exact (List.pairwise_append.1 h).2.2 p hp c (List.mem_cons_self _ _)
    rw [hs, ih, hn, List.append_assoc, List.singleton_append]
    rw [hn, List.append_assoc, List.singleton_append]
    exact h

/-- Every index state is reached from a new index by `set` calls: the calls
`set(k, v)` for its records `(k, v)` in iteration order rebuild it. -/
theorem SparseMemMap.set_all_range {V : Type} (m : SparseMemMap V) :
    (SparseMemMap.new : SparseMemMap V).set_all m.m_elements.range = m := by
  apply SparseMemMap.ext_nodes
  rw [SparseMemMap.nodes_set_all_ascending]
  · rfl
  · exact m.m_elements.ordered

theorem nodes_eq_of_mem_iff {V : Type} (a b : List (TId × V)) (ha : KeysAscending a)
    (hb : KeysAscending b) (h : ∀ p, p ∈ a ↔ p ∈ b) : a = b := by
  haveI : IsAntisymm (TId × V) (fun x y => x.1 < y.1) :=
    ⟨fun _ _ h1 h2 => absurd h1 (Nat.lt_asymm h2)⟩
  have nd : ∀ l : List (TId × V), KeysAscending l → l.Nodup := fun l hl =>
    List.Nodup.of_map Prod.fst (keys_nodup_of_ascending l hl)
  exact List.eq_of_perm_of_sorted ((List.perm_ext_iff_of_nodup (nd a ha) (nd b hb)).2 h) ha hb

theorem SparseMemMap.mem_nodes_set_all_of_nodup {V : Type} (l : List (TId × V))
    (hd : (l.map Prod.fst).Nodup) (k : TId) (v : V) :
    (k, v) ∈ ((SparseMemMap.new : SparseMemMap V).set_all l).m_elements.nodes ↔ (k, v) ∈ l := by
  induction l using List.reverseRecOn with
  | nil => simp [SparseMemMap.set_all, SparseMemMap.new, StdMap.empty]
  | append_singleton l c ih =>
    rw [List.map_append, List.nodup_append] at hd
    have hcl : c.1 ∉ l.map Prod.fst := fun hc =>
      hd.2.2 hc (by simp)
    rw [SparseMemMap.set_all_append]
    have hok := SparseMemMap.get_eq_ok_iff
      (((SparseMemMap.new : SparseMemMap V).set_all l).set c.1 c.2) k v
    unfold StdMap.range at hok
    rw [← hok, List.mem_append, List.mem_singleton]
    by_cases hk : k = c.1
    · rw [hk, SparseMemMap.get_set_same]
      constructor
      · intro h
        have hv : c.2 = v := Except.ok.inj h
        exact Or.inr (by rw [← hv])
      · rintro (h | h)
        · exact absurd (List.mem_map.2 ⟨(c.1, v), h, rfl⟩) hcl
        · have hv : v = c.2 := congrArg Prod.snd h
          rw [hv]
    · rw [SparseMemMap.get_set_other _ _ _ _ hk]
      have hok2 := SparseMemMap.get_eq_ok_iff
        ((SparseMemMap.new : SparseMemMap V).set_all l) k v
      unfold StdMap.range at hok2
      rw [hok2, ih hd.1]
      constructor
      · intro h; exact Or.inl h
      · rintro (h | h)
        · exact h
        · exact absurd (congrArg Prod.fst h) hk

theorem SparseMemMap.get_noexcept_of_get_ok {V : Type} (e : V) (m : SparseMemMap V)
    (id : TId) (v : V) (h : m.get id = .ok v) : m.get_noexcept e id = v := by
  unfold SparseMemMap.get at h
  unfold SparseMemMap.get_noexcept
  cases hf : m.m_elements.find id with
  | none => rw [hf] at h; simp at h
  | some w => rw [hf] at h; injection h

theorem SparseMemMap.get_noexcept_of_get_error {V : Type} (e : V) (m : SparseMemMap V)
    (id : TId) (x : not_found) (h : m.get id = .error x) : m.get_noexcept e id = e := by
  unfold SparseMemMap.get at h
  unfold SparseMemMap.get_noexcept
  cases hf : m.m_elements.find id with
  | none => rfl
  | some w => rw [hf] at h; simp at h

theorem SparseMemMap.get_step_eq {V : Type} (m : SparseMemMap V) (id : TId) :
    m.get_step id = (m.get id, m) := by
  unfold SparseMemMap.get_step SparseMemMap.get
  cases m.m_elements.find id <;> rfl

theorem SparseMemMap.get_noexcept_step_eq {V : Type} (e : V) (m : SparseMemMap V) (id : TId) :
    m.get_noexcept_step e id = (m.get_noexcept e id, m) := by
  unfold SparseMemMap.get_noexcept_step SparseMemMap.get_noexcept
  cases m.m_elements.find id <;> rfl

/-- C1. Last-write-wins: after any finite sequence of `set` calls on an empty
index, for every identifier `k` that occurs in the sequence there is a call
index `j` with `id_j = k` such that no later call has identifier `k` (so `j` is
the largest such index), and both `get k` and `get_noexcept k` return `v_j`. -/
theorem last_write_wins {V : Type} (empty_value : V) (calls : List (TId × V)) (k : TId)
    (hk : k ∈ calls.map Prod.fst) :
    ∃ (j : Nat) (v : V), calls[j]? = some (k, v) ∧
      (∀ (i : Nat) (p : TId × V), j < i → calls[i]? = some p → p.1 ≠ k) ∧
      ((SparseMemMap.new : SparseMemMap V).set_all calls).get k = .ok v ∧
      ((SparseMemMap.new : SparseMemMap V).set_all calls).get_noexcept empty_value k = v := by
  induction calls using List.reverseRecOn with
  | nil => simp at hk
  | append_singleton l c ih =>
    rw [SparseMemMap.set_all_append]
    by_cases hc : c.1 = k
    · refine ⟨l.length, c.2, ?_, ?_, ?_, ?_⟩
      · rw [List.getElem?_concat_length, ← hc]
      · intro i p hi hp
        rw [List.getElem?_eq_none (by simp; omega)] at hp
        exact absurd hp (by simp)
      · rw [hc]; exact SparseMemMap.get_set_same _ _ _
      · rw [hc]; exact SparseMemMap.get_noexcept_set_same _ _ _ _
    · have hk2 : k ∈ l.map Prod.fst := by
        rw [List.map_append, List.mem_append] at hk
        rcases hk with h | h
        · exact h
        · simp at h; exact absurd h.symm hc
      obtain ⟨j, v, hj, hlast, hget, hgn⟩ := ih hk2
      have hjl : j < l.length := by
        by_contra hcon
        rw [List.getElem?_eq_none (not_lt.1 hcon)] at hj
        exact absurd hj (by simp)
      refine ⟨j, v, ?_, ?_, ?_, ?_⟩
      · rw [List.getElem?_append_left hjl]; exact hj
      · intro i p hi hp
        by_cases hil : i < l.length
        · rw [List.getElem?_append_left hil] at hp
          exact hlast i p hi hp
        · rw [List.getElem?_append_right (not_lt.1 hil)] at hp
          have hmem : p ∈ [c] := List.mem_iff_getElem?.2 ⟨_, hp⟩
          rw [List.mem_singleton] at hmem
          rw [hmem]; exact hc
      · rw [SparseMemMap.get_set_other _ _ _ _ (Ne.symm hc)]; exact hget
      · rw [SparseMemMap.get_noexcept_set_other _ _ _ _ _ (Ne.symm hc)]; exact hgn

/-- Witness of C1: the calls `set(2,10), set(5,7), set(2,30)` and the identifier 2. -/
theorem last_write_wins_witness :
    (2 : TId) ∈ ([(2, 10), (5, 7), (2, 30)] : List (TId × Nat)).map Prod.fst ∧
    ∃ (j : Nat) (v : Nat), ([(2, 10), (5, 7), (2, 30)] : List (TId × Nat))[j]? = some (2, v) ∧
      (∀ (i : Nat) (p : TId × Nat), j < i → ([(2, 10), (5, 7), (2, 30)] : List (TId × Nat))[i]? = some p → p.1 ≠ 2) ∧
      ((SparseMemMap.new : SparseMemMap Nat).set_all [(2, 10), (5, 7), (2, 30)]).get 2 = .ok v ∧
      ((SparseMemMap.new : SparseMemMap Nat).set_all
        [(2, 10), (5, 7), (2, 30)]).get_noexcept 0 2 = v :=
  ⟨by decide, last_write_wins 0 [(2, 10), (5, 7), (2, 30)] 2 (by decide)⟩

/-- C2. The member `get` throws exactly when the key is absent: for every
index state and identifier, `get id` throws `e` if and only if `e` carries `id`
and no entry for `id` is stored; when an entry `(id, v)` is stored `get id`
returns `v`; and after any sequence of `set` and `clear` calls on a new index,
`get id` throws `not_found` carrying `id` for every `id` never passed to `set`. -/
theorem get_throws_iff_absent {V : Type} (m : SparseMemMap V) (id : TId) :
    (∀ e, m.get id = .error e ↔ (e = ⟨id⟩ ∧ ¬ ∃ v, (id, v) ∈ m.m_elements.range)) ∧
    (∀ v, (id, v) ∈ m.m_elements.range → m.get id = .ok v) ∧
    (∀ calls : List (Call V), (∀ v, Call.set id v ∉ calls) →
      (run_calls SparseMemMap.new calls).get id = .error ⟨id⟩) := by
  refine ⟨?_, ?_, ?_⟩
  · intro e
    rw [SparseMemMap.get_eq_error_iff, SparseMemMap.not_mem_keys_iff]
  · intro v hv
    exact (SparseMemMap.get_eq_ok_iff m id v).2 hv
  · intro calls hcalls
    rw [SparseMemMap.get_eq_error_iff]
    refine ⟨rfl, ?_⟩
    intro hmem
    rcases SparseMemMap.mem_keys_run_calls calls SparseMemMap.new id hmem with h | ⟨v, hv⟩
    · simp [SparseMemMap.new, StdMap.empty] at h
    · exact hcalls v hv

/-- Witness of C2: the state after `set(4,1), clear, set(9,2)`, identifier 4, and
the same calls as the sequence in which 7 is never set. -/
theorem get_throws_iff_absent_witness :
    (∀ v, Call.set 7 v ∉ ([.set 4 1, .clear, .set 9 2] : List (Call Nat))) ∧
    (9, 2) ∈ (run_calls (SparseMemMap.new : SparseMemMap Nat)
      [.set 4 1, .clear, .set 9 2]).m_elements.range ∧
    (run_calls (SparseMemMap.new : SparseMemMap Nat) [.set 4 1, .clear, .set 9 2]).get 9
      = .ok 2 ∧
    (run_calls (SparseMemMap.new : SparseMemMap Nat) [.set 4 1, .clear, .set 9 2]).get 7
      = .error ⟨7⟩ :=
  ⟨by simp, by simp [run_calls, Call.apply, SparseMemMap.set, SparseMemMap.clear,
      SparseMemMap.new, StdMap.assign, StdMap.clear, StdMap.empty, StdMap.range, assignNodes],
    (get_throws_iff_absent (run_calls SparseMemMap.new [.set 4 1, .clear, .set 9 2]) 9).2.1 2
      (by simp [run_calls, Call.apply, SparseMemMap.set, SparseMemMap.clear,
        SparseMemMap.new, StdMap.assign, StdMap.clear, StdMap.empty, StdMap.range,
        assignNodes]),
    (get_throws_iff_absent (SparseMemMap.new : SparseMemMap Nat) 7).2.2
      [.set 4 1, .clear, .set 9 2] (by simp)⟩

/-- C3. The member `get_noexcept` is total: for every index state and
identifier it returns the stored value when an entry for the identifier
exists and the value of `empty_value<TValue>()` when none exists; and whenever
`get id` returns `v`, `get_noexcept id` is `v`. -/
theorem get_noexcept_value_or_empty {V : Type} (empty_value : V) (m : SparseMemMap V)
    (id : TId) :
    (∀ v, (id, v) ∈ m.m_elements.range → m.get_noexcept empty_value id = v) ∧
    ((¬ ∃ v, (id, v) ∈ m.m_elements.range) → m.get_noexcept empty_value id = empty_value) ∧
    (∀ v, m.get id = .ok v → m.get_noexcept empty_value id = v) := by
  have key : ∀ v, m.get id = .ok v → m.get_noexcept empty_value id = v := by
    intro v hv
    unfold SparseMemMap.get at hv
    unfold SparseMemMap.get_noexcept
    cases hf : m.m_elements.find id with
    | none => rw [hf] at hv; simp at hv
    | some w => rw [hf] at hv; injection hv
  refine ⟨?_, ?_, key⟩
  · intro v hv
    exact key v ((SparseMemMap.get_eq_ok_iff m id v).2 hv)
  · intro habs
    have h := (findNodes_eq_none_iff m.m_elements.nodes id).2
      ((SparseMemMap.not_mem_keys_iff m id).2 habs)
    unfold SparseMemMap.get_noexcept StdMap.find
    rw [h]

/-- Witness of C3: the index holding `(3, 8)`, looked up at 3 and at 4, with
empty value 0. -/
theorem get_noexcept_value_or_empty_witness :
    (3, 8) ∈ ((SparseMemMap.new : SparseMemMap Nat).set 3 8).m_elements.range ∧
    ((SparseMemMap.new : SparseMemMap Nat).set 3 8).get_noexcept 0 3 = 8 ∧
    (¬ ∃ v, (4, v) ∈ ((SparseMemMap.new : SparseMemMap Nat).set 3 8).m_elements.range) ∧
    ((SparseMemMap.new : SparseMemMap Nat).set 3 8).get_noexcept 0 4 = 0 :=
  ⟨by simp [SparseMemMap.set, SparseMemMap.new, StdMap.assign, StdMap.empty, StdMap.range,
      assignNodes],
    (get_noexcept_value_or_empty 0 ((SparseMemMap.new : SparseMemMap Nat).set 3 8) 3).1 8
      (by simp [SparseMemMap.set, SparseMemMap.new, StdMap.assign, StdMap.empty,
        StdMap.range, assignNodes]),
    by simp [SparseMemMap.set, SparseMemMap.new, StdMap.assign, StdMap.empty, StdMap.range,
      assignNodes],
    (get_noexcept_value_or_empty 0 ((SparseMemMap.new : SparseMemMap Nat).set 3 8) 4).2.1
      (by simp [SparseMemMap.set, SparseMemMap.new, StdMap.assign, StdMap.empty,
        StdMap.range, assignNodes])⟩

/-- C4. The member `size` counts distinct identifiers: after any sequence of
`set` calls on a new index, `size()` is the number of distinct identifiers of
the sequence; it is the number of calls when the identifiers are pairwise
distinct; and further `set` calls whose identifiers occurred already leave
`size()` unchanged. -/
theorem size_counts_distinct_ids {V : Type} (calls : List (TId × V)) :
    ((SparseMemMap.new : SparseMemMap V).set_all calls).size
      = (calls.map Prod.fst).dedup.length ∧
    ((calls.map Prod.fst).Nodup →
      ((SparseMemMap.new : SparseMemMap V).set_all calls).size = calls.length) ∧
    (∀ more : List (TId × V), (∀ c ∈ more, c.1 ∈ calls.map Prod.fst) →
      (((SparseMemMap.new : SparseMemMap V).set_all calls).set_all more).size
        = ((SparseMemMap.new : SparseMemMap V).set_all calls).size) := by
  have hcount : ((SparseMemMap.new : SparseMemMap V).set_all calls).size
      = (calls.map Prod.fst).dedup.length := by
    rw [SparseMemMap.size_eq_card_keys, ← List.card_toFinset]
    congr 1
    ext k
    rw [List.mem_toFinset, List.mem_toFinset, SparseMemMap.mem_keys_set_all]
    simp [SparseMemMap.new, StdMap.empty]
  refine ⟨hcount, ?_, ?_⟩
  · intro hnd
    rw [hcount, List.dedup_eq_self.2 hnd, List.length_map]
  · intro more hmore
    apply SparseMemMap.size_set_all_of_mem
    intro c hc
    exact (SparseMemMap.mem_keys_set_all calls SparseMemMap.new c.1).2 (Or.inr (hmore c hc))

/-- Witness of C4: three calls with distinct identifiers 7, 2, 9 and then two
calls on identifiers 2 and 7. -/
theorem size_counts_distinct_ids_witness :
    (([(7, 1), (2, 1), (9, 4)] : List (TId × Nat)).map Prod.fst).Nodup ∧
    ((SparseMemMap.new : SparseMemMap Nat).set_all [(7, 1), (2, 1), (9, 4)]).size = 3 ∧
    (∀ c ∈ ([(2, 5), (7, 6)] : List (TId × Nat)),
      c.1 ∈ ([(7, 1), (2, 1), (9, 4)] : List (TId × Nat)).map Prod.fst) ∧
    (((SparseMemMap.new : SparseMemMap Nat).set_all [(7, 1), (2, 1), (9, 4)]).set_all
      [(2, 5), (7, 6)]).size
      = ((SparseMemMap.new : SparseMemMap Nat).set_all [(7, 1), (2, 1), (9, 4)]).size :=
  ⟨by decide,
    (size_counts_distinct_ids [(7, 1), (2, 1), (9, 4)]).2.1 (by decide),
    by decide,
    (size_counts_distinct_ids [(7, 1), (2, 1), (9, 4)]).2.2 [(2, 5), (7, 6)] (by decide)⟩

/-- C5. The member `dump_as_list` hands `reliable_write` the entries in
strictly ascending key order whatever the insertion order: for every index
state the record sequence given to the writer is the vector `v`, its keys are
strictly increasing (so each key appears once), it has exactly `size()`
records, and after `set(3,A), set(1,B), set(2,C)` on a new index the records
are `(1,B), (2,C), (3,A)` in that order. -/
theorem dump_as_list_ascending_keys {V E : Type} (S : Sizes)
    (reliable_write : Int → List (TId × V) → Nat → Except E Unit) (fd : Int) :
    (∀ m : SparseMemMap V,
      (m.dump_as_list S reliable_write fd).1
        = reliable_write fd m.dump_vector (S.wrap (S.sizeof_value_type * m.dump_vector.length)) ∧
      List.Pairwise (fun a b => a.1 < b.1) m.dump_vector ∧
      m.dump_vector.length = m.size) ∧
    (∀ A B C : V,
      ((SparseMemMap.new : SparseMemMap V).set_all [(3, A), (1, B), (2, C)]).dump_vector
        = [(1, B), (2, C), (3, A)] ∧
      (((SparseMemMap.new : SparseMemMap V).set_all
          [(3, A), (1, B), (2, C)]).dump_as_list S reliable_write fd).1
        = reliable_write fd [(1, B), (2, C), (3, A)] (S.wrap (S.sizeof_value_type * 3))) := by
  have hv : ∀ m : SparseMemMap V, m.dump_vector = m.m_elements.nodes := by
    intro m
    unfold SparseMemMap.dump_vector StdMap.range
    rw [foldl_push_back, List.nil_append]
  refine ⟨?_, ?_⟩
  · intro m
    refine ⟨rfl, ?_, ?_⟩
    · rw [hv]; exact m.m_elements.ordered
    · rw [hv]; rfl
  · intro A B C
    have h3 : ((SparseMemMap.new : SparseMemMap V).set_all
        [(3, A), (1, B), (2, C)]).dump_vector = [(1, B), (2, C), (3, A)] := by
      rw [hv]
      simp [SparseMemMap.set_all, SparseMemMap.set, SparseMemMap.new, StdMap.assign,
        StdMap.empty, assignNodes]
    refine ⟨h3, ?_⟩
    unfold SparseMemMap.dump_as_list
    simp only [h3]
    rfl

/-- C6. The member `clear` resets the index to its initial empty state: for
every index state the cleared index equals a newly constructed one, its
`size()` and `used_memory()` are 0, `get id` throws `not_found` carrying `id`
for every `id`, `get_noexcept id` is the empty value, and `dump_as_list` hands
the writer no record and a byte count of 0. -/
theorem clear_resets_to_new {V E : Type} (S : Sizes) (empty_value : V)
    (reliable_write : Int → List (TId × V) → Nat → Except E Unit) (fd : Int)
    (m : SparseMemMap V) :
    m.clear = SparseMemMap.new ∧
    m.clear.size = 0 ∧
    m.clear.used_memory S = 0 ∧
    (∀ id, m.clear.get id = .error ⟨id⟩) ∧
    (∀ id, m.clear.get_noexcept empty_value id = empty_value) ∧
    m.clear.dump_vector = [] ∧
    (m.clear.dump_as_list S reliable_write fd).1 = reliable_write fd [] 0 := by
  refine ⟨rfl, rfl, ?_, fun _ => rfl, fun _ => rfl, rfl, ?_⟩
  · simp [SparseMemMap.used_memory, SparseMemMap.clear, StdMap.clear, StdMap.empty,
      StdMap.size, Sizes.wrap]
  · simp [SparseMemMap.dump_as_list, SparseMemMap.dump_vector, SparseMemMap.clear,
      StdMap.clear, StdMap.empty, StdMap.range, Sizes.wrap]

/-- C7, as the code has it. Export size and framing: for every index state
`dump_as_list` calls `reliable_write` once, with the records of the index and
nothing else (no header, trailer or length prefix) and with the byte count
`sizeof(value_type) * size()` in `size_t` arithmetic, where `value_type` is the
pair type of the map; the count is `size() * (sizeof(TId) + sizeof(TValue))`
when the pair type has no padding and the product fits a `size_t`; and an
empty index gives a byte count of 0. -/
theorem dump_as_list_byte_count {V E : Type} (S : Sizes)
    (reliable_write : Int → List (TId × V) → Nat → Except E Unit) (fd : Int)
    (m : SparseMemMap V) :
    (m.dump_as_list S reliable_write fd).1
      = reliable_write fd m.m_elements.range (S.wrap (S.sizeof_value_type * m.size)) ∧
    (S.sizeof_value_type = S.sizeof_TId + S.sizeof_TValue →
      S.sizeof_value_type * m.size < 2 ^ S.size_t_bits →
      (m.dump_as_list S reliable_write fd).1
        = reliable_write fd m.m_elements.range (m.size * (S.sizeof_TId + S.sizeof_TValue))) ∧
    ((SparseMemMap.new : SparseMemMap V).dump_as_list S reliable_write fd).1
      = reliable_write fd [] 0 := by
  have hv : m.dump_vector = m.m_elements.range := by
    unfold SparseMemMap.dump_vector
    rw [foldl_push_back, List.nil_append]
  have h1 : (m.dump_as_list S reliable_write fd).1
      = reliable_write fd m.m_elements.range (S.wrap (S.sizeof_value_type * m.size)) := by
    unfold SparseMemMap.dump_as_list
    simp only [hv]
    rfl
  refine ⟨h1, ?_, ?_⟩
  · intro hpad hfit
    rw [h1]
    unfold Sizes.wrap
    rw [Nat.mod_eq_of_lt hfit, hpad, Nat.mul_comm]
  · simp [SparseMemMap.dump_as_list, SparseMemMap.dump_vector, SparseMemMap.new,
      StdMap.empty, StdMap.range, Sizes.wrap]

/-- Witness of C7: the registered instantiation (8-byte identifier, 8-byte
value, 16-byte pair) with two entries and a writer that reports the byte count. -/
theorem dump_as_list_byte_count_witness :
    Sizes.location64.sizeof_value_type
      = Sizes.location64.sizeof_TId + Sizes.location64.sizeof_TValue ∧
    Sizes.location64.sizeof_value_type
      * ((SparseMemMap.new : SparseMemMap Nat).set_all [(3, 1), (1, 2)]).size
      < 2 ^ Sizes.location64.size_t_bits ∧
    (((SparseMemMap.new : SparseMemMap Nat).set_all [(3, 1), (1, 2)]).dump_as_list
        Sizes.location64 (fun _ _ n => (Except.error n : Except Nat Unit)) 1).1
      = Except.error (((SparseMemMap.new : SparseMemMap Nat).set_all [(3, 1), (1, 2)]).size
          * (Sizes.location64.sizeof_TId + Sizes.location64.sizeof_TValue)) :=
  ⟨by decide, by decide,
    (dump_as_list_byte_count Sizes.location64
      (fun _ _ n => (Except.error n : Except Nat Unit)) 1
      ((SparseMemMap.new : SparseMemMap Nat).set_all [(3, 1), (1, 2)])).2.1
      (by decide) (by decide)⟩

/-- C7 as stated fails: for 8-byte identifiers and 4-byte values the pair type
takes 16 bytes, and with one entry the byte count given to `reliable_write` is
16, not `size() * (sizeof(TId) + sizeof(TValue)) = 12`. -/
theorem dump_as_list_byte_count_counterexample :
    (((SparseMemMap.new : SparseMemMap Nat).set 1 5).dump_as_list Sizes.id64_value32
        (fun _ _ n => (Except.error n : Except Nat Unit)) 1).1 = Except.error 16 ∧
    ((SparseMemMap.new : SparseMemMap Nat).set 1 5).size
      * (Sizes.id64_value32.sizeof_TId + Sizes.id64_value32.sizeof_TValue) = 12 ∧
    ¬ (((SparseMemMap.new : SparseMemMap Nat).set 1 5).dump_as_list Sizes.id64_value32
        (fun _ _ n => (Except.error n : Except Nat Unit)) 1).1
      = Except.error (((SparseMemMap.new : SparseMemMap Nat).set 1 5).size
          * (Sizes.id64_value32.sizeof_TId + Sizes.id64_value32.sizeof_TValue)) := by
  refine ⟨rfl, by decide, ?_⟩
  intro h
  have h16 : (16 : Nat) = ((SparseMemMap.new : SparseMemMap Nat).set 1 5).size
      * (Sizes.id64_value32.sizeof_TId + Sizes.id64_value32.sizeof_TValue) :=
    Except.error.inj h
  exact absurd h16 (by decide)

/-- C9. The member `used_memory` is `size()` times a fixed per-element
constant: for every index state, `used_memory()` is
`size() * (sizeof(TId) + sizeof(TValue) + 4 * sizeof(void*))` in `size_t`
arithmetic, it is that product exactly when the product fits a `size_t`, and
it is the same for any two index states of the same `size()`, whatever
identifiers and values they store. -/
theorem used_memory_eq_size_mul_constant {V : Type} (S : Sizes) (m : SparseMemMap V) :
    m.used_memory S
      = S.wrap (m.size * (S.sizeof_TId + S.sizeof_TValue + 4 * S.sizeof_voidp)) ∧
    (m.size * (S.sizeof_TId + S.sizeof_TValue + 4 * S.sizeof_voidp) < 2 ^ S.size_t_bits →
      m.used_memory S = m.size * (S.sizeof_TId + S.sizeof_TValue + 4 * S.sizeof_voidp)) ∧
    (∀ m2 : SparseMemMap V, m2.size = m.size → m2.used_memory S = m.used_memory S) := by
  have h1 : m.used_memory S
      = S.wrap (m.size * (S.sizeof_TId + S.sizeof_TValue + 4 * S.sizeof_voidp)) := by
    unfold SparseMemMap.used_memory SparseMemMap.element_size Sizes.wrap
    show (S.sizeof_TId + S.sizeof_TValue + S.sizeof_voidp * 4) % 2 ^ S.size_t_bits
        * m.size % 2 ^ S.size_t_bits = _
    rw [Nat.mod_mul_mod, Nat.mul_comm, Nat.mul_comm S.sizeof_voidp 4]
  refine ⟨h1, ?_, ?_⟩
  · intro hfit
    rw [h1]
    exact Nat.mod_eq_of_lt hfit
  · intro m2 h2
    unfold SparseMemMap.used_memory
    show S.wrap (SparseMemMap.element_size S * m2.size)
      = S.wrap (SparseMemMap.element_size S * m.size)
    rw [h2]

/-- Witness of C9: the registered 64-bit instantiation and an index with two
entries: the estimate is `2 * (8 + 8 + 4 * 8) = 96`. -/
theorem used_memory_eq_size_mul_constant_witness :
    ((SparseMemMap.new : SparseMemMap Nat).set_all [(10, 1), (5, 2), (10, 3)]).size
      * (Sizes.location64.sizeof_TId + Sizes.location64.sizeof_TValue
        + 4 * Sizes.location64.sizeof_voidp) < 2 ^ Sizes.location64.size_t_bits ∧
    ((SparseMemMap.new : SparseMemMap Nat).set_all
        [(10, 1), (5, 2), (10, 3)]).used_memory Sizes.location64
      = ((SparseMemMap.new : SparseMemMap Nat).set_all [(10, 1), (5, 2), (10, 3)]).size
        * (Sizes.location64.sizeof_TId + Sizes.location64.sizeof_TValue
          + 4 * Sizes.location64.sizeof_voidp) ∧
    ((SparseMemMap.new : SparseMemMap Nat).set_all
        [(10, 1), (5, 2), (10, 3)]).used_memory Sizes.location64 = 96 :=
  ⟨by decide,
    (used_memory_eq_size_mul_constant Sizes.location64
      ((SparseMemMap.new : SparseMemMap Nat).set_all [(10, 1), (5, 2), (10, 3)])).2.1
      (by decide),
    by decide⟩

/-- C10. Export failure is propagated and all-or-nothing: with the writer a
function that either accepts the whole buffer or reports an error,
`dump_as_list` makes one call of the writer on the whole record sequence, it
fails with `e` if and only if that call fails with `e`, it succeeds if and only
if that call succeeds, and in both cases the index is unchanged. -/
theorem dump_as_list_propagates_failure {V E : Type} (S : Sizes)
    (reliable_write : Int → List (TId × V) → Nat → Except E Unit) (fd : Int)
    (m : SparseMemMap V) :
    (∀ e, (m.dump_as_list S reliable_write fd).1 = .error e ↔
      reliable_write fd m.m_elements.range (S.wrap (S.sizeof_value_type * m.size))
        = .error e) ∧
    ((m.dump_as_list S reliable_write fd).1 = .ok () ↔
      reliable_write fd m.m_elements.range (S.wrap (S.sizeof_value_type * m.size))
        = .ok ()) ∧
    (m.dump_as_list S reliable_write fd).2 = m := by
  have h1 : (m.dump_as_list S reliable_write fd).1
      = reliable_write fd m.m_elements.range (S.wrap (S.sizeof_value_type * m.size)) := by
    unfold SparseMemMap.dump_as_list
    simp only [SparseMemMap.dump_vector_eq_range]
    rfl
  refine ⟨fun e => by rw [h1], by rw [h1], rfl⟩

/-- C11. Concrete overwrite scenario: starting from a new index, for all
values `X`, `Y`, `Z`, after `set(10, X)`, `set(5, Y)`, `set(10, Z)` the index has
`size() = 2`, `get(10)` returns `Z`, `get(5)` returns `Y`, `get(7)` throws
`not_found` carrying 7, and `dump_as_list` hands the writer exactly the two
records `(5, Y)`, `(10, Z)` in that order. -/
theorem overwrite_scenario {V E : Type} (S : Sizes)
    (reliable_write : Int → List (TId × V) → Nat → Except E Unit) (fd : Int) (X Y Z : V) :
    ((SparseMemMap.new : SparseMemMap V).set_all [(10, X), (5, Y), (10, Z)]).size = 2 ∧
    ((SparseMemMap.new : SparseMemMap V).set_all [(10, X), (5, Y), (10, Z)]).get 10 = .ok Z ∧
    ((SparseMemMap.new : SparseMemMap V).set_all [(10, X), (5, Y), (10, Z)]).get 5 = .ok Y ∧
    ((SparseMemMap.new : SparseMemMap V).set_all [(10, X), (5, Y), (10, Z)]).get 7
      = .error ⟨7⟩ ∧
    ((SparseMemMap.new : SparseMemMap V).set_all [(10, X), (5, Y), (10, Z)]).dump_vector
      = [(5, Y), (10, Z)] ∧
    (((SparseMemMap.new : SparseMemMap V).set_all
        [(10, X), (5, Y), (10, Z)]).dump_as_list S reliable_write fd).1
      = reliable_write fd [(5, Y), (10, Z)] (S.wrap (S.sizeof_value_type * 2)) := by
  have hn : ((SparseMemMap.new : SparseMemMap V).set_all
      [(10, X), (5, Y), (10, Z)]).m_elements.nodes = [(5, Y), (10, Z)] := by
    simp [SparseMemMap.set_all, SparseMemMap.set, SparseMemMap.new, StdMap.assign,
      StdMap.empty, assignNodes]
  have hv : ((SparseMemMap.new : SparseMemMap V).set_all
      [(10, X), (5, Y), (10, Z)]).dump_vector = [(5, Y), (10, Z)] := by
    rw [SparseMemMap.dump_vector_eq_range]
    exact hn
  refine ⟨?_, ?_, ?_, ?_, hv, ?_⟩
  · show List.length _ = 2
    rw [hn]; rfl
  · unfold SparseMemMap.get StdMap.find
    rw [hn]; simp [findNodes]
  · unfold SparseMemMap.get StdMap.find
    rw [hn]; simp [findNodes]
  · unfold SparseMemMap.get StdMap.find
    rw [hn]; simp [findNodes]
  · unfold SparseMemMap.dump_as_list
    simp only [hv]
    rfl

/-- C12. Insertion order is irrelevant: for every list of `(id, value)` pairs
with pairwise distinct identifiers and every permutation of it, the `set`
calls in either order on a new index give the same index state, hence the same
`size()`, the same result of `get` and of `get_noexcept` for every identifier,
and the same dumped record sequence. -/
theorem insertion_order_irrelevant {V : Type} (empty_value : V) (l l2 : List (TId × V))
    (hd : (l.map Prod.fst).Nodup) (hp : l.Perm l2) :
    (SparseMemMap.new : SparseMemMap V).set_all l = SparseMemMap.new.set_all l2 ∧
    ((SparseMemMap.new : SparseMemMap V).set_all l).size
      = ((SparseMemMap.new : SparseMemMap V).set_all l2).size ∧
    (∀ id, ((SparseMemMap.new : SparseMemMap V).set_all l).get id
      = ((SparseMemMap.new : SparseMemMap V).set_all l2).get id) ∧
    (∀ id, ((SparseMemMap.new : SparseMemMap V).set_all l).get_noexcept empty_value id
      = ((SparseMemMap.new : SparseMemMap V).set_all l2).get_noexcept empty_value id) ∧
    ((SparseMemMap.new : SparseMemMap V).set_all l).dump_vector
      = ((SparseMemMap.new : SparseMemMap V).set_all l2).dump_vector := by
  have hd2 : (l2.map Prod.fst).Nodup := ((hp.map Prod.fst).nodup_iff).1 hd
  have heq : (SparseMemMap.new : SparseMemMap V).set_all l = SparseMemMap.new.set_all l2 := by
    apply SparseMemMap.ext_nodes
    apply nodes_eq_of_mem_iff _ _ (StdMap.ordered _) (StdMap.ordered _)
    rintro ⟨k, v⟩
    rw [SparseMemMap.mem_nodes_set_all_of_nodup l hd,
      SparseMemMap.mem_nodes_set_all_of_nodup l2 hd2]
    exact hp.mem_iff
  refine ⟨heq, ?_, ?_, ?_, ?_⟩
  · rw [heq]
  · intro id; rw [heq]
  · intro id; rw [heq]
  · rw [heq]

/-- Witness of C12: the pairs `(3,30), (1,10), (2,20)` and their reversal. -/
theorem insertion_order_irrelevant_witness :
    (([(3, 30), (1, 10), (2, 20)] : List (TId × Nat)).map Prod.fst).Nodup ∧
    ([(3, 30), (1, 10), (2, 20)] : List (TId × Nat)).Perm [(2, 20), (1, 10), (3, 30)] ∧
    ((SparseMemMap.new : SparseMemMap Nat).set_all [(3, 30), (1, 10), (2, 20)]).dump_vector
      = ((SparseMemMap.new : SparseMemMap Nat).set_all
          [(2, 20), (1, 10), (3, 30)]).dump_vector ∧
    ((SparseMemMap.new : SparseMemMap Nat).set_all [(2, 20), (1, 10), (3, 30)]).dump_vector
      = [(1, 10), (2, 20), (3, 30)] :=
  ⟨by decide, by decide,
    (insertion_order_irrelevant 0 [(3, 30), (1, 10), (2, 20)] [(2, 20), (1, 10), (3, 30)]
      (by decide) (by decide)).2.2.2.2,
    by decide⟩

/-- C13. Lookups are read-only: for every index state and identifier, a call
of `get` (whether it returns or throws) and a call of `get_noexcept` leave the
index as it was and give the results of the lookups; so `size()` is unchanged,
and an identifier that was absent before the lookup is still absent after it
(no entry is created). -/
theorem lookups_read_only {V : Type} (empty_value : V) (m : SparseMemMap V) (id : TId) :
    (m.get_step id).2 = m ∧
    (m.get_step id).1 = m.get id ∧
    (m.get_noexcept_step empty_value id).2 = m ∧
    (m.get_noexcept_step empty_value id).1 = m.get_noexcept empty_value id ∧
    (m.get_step id).2.size = m.size ∧
    (m.get_noexcept_step empty_value id).2.size = m.size ∧
    ((¬ ∃ v, (id, v) ∈ m.m_elements.range) →
      (¬ ∃ v, (id, v) ∈ (m.get_step id).2.m_elements.range) ∧
      (¬ ∃ v, (id, v) ∈ (m.get_noexcept_step empty_value id).2.m_elements.range) ∧
      (m.get_step id).1 = .error ⟨id⟩ ∧
      (m.get_step id).2.get id = .error ⟨id⟩) := by
  have h1 := SparseMemMap.get_step_eq m id
  have h2 := SparseMemMap.get_noexcept_step_eq empty_value m id
  refine ⟨by rw [h1], by rw [h1], by rw [h2], by rw [h2], by rw [h1], by rw [h2], ?_⟩
  intro habs
  have herr : m.get id = .error ⟨id⟩ :=
    (SparseMemMap.get_eq_error_iff m id ⟨id⟩).2
      ⟨rfl, (SparseMemMap.not_mem_keys_iff m id).2 habs⟩
  rw [h1, h2]
  exact ⟨habs, habs, herr, herr⟩

/-- Witness of C13: the index holding `(3, 8)` and a lookup of the absent
identifier 4. -/
theorem lookups_read_only_witness :
    (¬ ∃ v, (4, v) ∈ ((SparseMemMap.new : SparseMemMap Nat).set 3 8).m_elements.range) ∧
    (¬ ∃ v, (4, v) ∈
      (((SparseMemMap.new : SparseMemMap Nat).set 3 8).get_step 4).2.m_elements.range) ∧
    (¬ ∃ v, (4, v) ∈
      (((SparseMemMap.new : SparseMemMap Nat).set 3 8).get_noexcept_step
        0 4).2.m_elements.range) ∧
    (((SparseMemMap.new : SparseMemMap Nat).set 3 8).get_step 4).1 = .error ⟨4⟩ ∧
    (((SparseMemMap.new : SparseMemMap Nat).set 3 8).get_step 4).2.get 4 = .error ⟨4⟩ :=
  ⟨by simp [SparseMemMap.set, SparseMemMap.new, StdMap.assign, StdMap.empty, StdMap.range,
      assignNodes],
    (lookups_read_only 0 ((SparseMemMap.new : SparseMemMap Nat).set 3 8) 4).2.2.2.2.2.2
      (by simp [SparseMemMap.set, SparseMemMap.new, StdMap.assign, StdMap.empty,
        StdMap.range, assignNodes])⟩

/-- C14. The member `set` changes only the addressed key: for every index
state, identifiers `id` and `k` with `k ≠ id`, and value `v`, `get k` and
`get_noexcept k` give the same result (value or `not_found`) after `set(id, v)`
as before it, and `size()` after `set(id, v)` is `size()` when `id` was present
and `size() + 1` otherwise. -/
theorem set_changes_only_its_key {V : Type} (empty_value : V) (m : SparseMemMap V)
    (id k : TId) (v : V) (hk : k ≠ id) :
    (m.set id v).get k = m.get k ∧
    (m.set id v).get_noexcept empty_value k = m.get_noexcept empty_value k ∧
    ((∃ w, (id, w) ∈ m.m_elements.range) → (m.set id v).size = m.size) ∧
    ((¬ ∃ w, (id, w) ∈ m.m_elements.range) → (m.set id v).size = m.size + 1) := by
  refine ⟨SparseMemMap.get_set_other m id k v hk,
    SparseMemMap.get_noexcept_set_other empty_value m id k v hk, ?_, ?_⟩
  · intro hpres
    apply SparseMemMap.size_set_of_mem
    by_contra habs
    exact (SparseMemMap.not_mem_keys_iff m id).1 habs hpres
  · intro habs
    exact SparseMemMap.size_set_of_not_mem m id v ((SparseMemMap.not_mem_keys_iff m id).2 habs)

/-- Witness of C14: the index holding `(3, 8)`, the calls `set(3, 9)` (present)
and `set(5, 1)` (absent), observed at the other identifier 4 resp. 3. -/
theorem set_changes_only_its_key_witness :
    (4 : TId) ≠ 3 ∧
    (∃ w, (3, w) ∈ ((SparseMemMap.new : SparseMemMap Nat).set 3 8).m_elements.range) ∧
    (((SparseMemMap.new : SparseMemMap Nat).set 3 8).set 3 9).size
      = ((SparseMemMap.new : SparseMemMap Nat).set 3 8).size ∧
    (3 : TId) ≠ 5 ∧
    (((SparseMemMap.new : SparseMemMap Nat).set 3 8).set 5 1).get 3
      = ((SparseMemMap.new : SparseMemMap Nat).set 3 8).get 3 ∧
    (¬ ∃ w, (5, w) ∈ ((SparseMemMap.new : SparseMemMap Nat).set 3 8).m_elements.range) ∧
    (((SparseMemMap.new : SparseMemMap Nat).set 3 8).set 5 1).size
      = ((SparseMemMap.new : SparseMemMap Nat).set 3 8).size + 1 :=
  ⟨by decide,
    ⟨8, by simp [SparseMemMap.set, SparseMemMap.new, StdMap.assign, StdMap.empty,
      StdMap.range, assignNodes]⟩,
    (set_changes_only_its_key 0 ((SparseMemMap.new : SparseMemMap Nat).set 3 8) 3 4 9
      (by decide)).2.2.1
      ⟨8, by simp [SparseMemMap.set, SparseMemMap.new, StdMap.assign, StdMap.empty,
        StdMap.range, assignNodes]⟩,
    by decide,
    (set_changes_only_its_key 0 ((SparseMemMap.new : SparseMemMap Nat).set 3 8) 5 3 1
      (by decide)).1,
    by simp [SparseMemMap.set, SparseMemMap.new, StdMap.assign, StdMap.empty, StdMap.range,
      assignNodes],
    (set_changes_only_its_key 0 ((SparseMemMap.new : SparseMemMap Nat).set 3 8) 5 3 1
      (by decide)).2.2.2
      (by simp [SparseMemMap.set, SparseMemMap.new, StdMap.assign, StdMap.empty,
        StdMap.range, assignNodes])⟩

/-- C15. The dump is a faithful and complete image of the index: for every
index state a pair `(k, v)` occurs in the dumped record sequence if and only
if `get k` returns `v`; and the calls `set(k, v)` for the dumped records, in
their order, on a new index rebuild the same index, with identical `size()`,
lookups and dump (round trip). -/
theorem dump_is_faithful_image {V : Type} (empty_value : V) (m : SparseMemMap V) :
    (∀ k v, (k, v) ∈ m.dump_vector ↔ m.get k = .ok v) ∧
    (SparseMemMap.new : SparseMemMap V).set_all m.dump_vector = m ∧
    ((SparseMemMap.new : SparseMemMap V).set_all m.dump_vector).size = m.size ∧
    (∀ id, ((SparseMemMap.new : SparseMemMap V).set_all m.dump_vector).get id = m.get id) ∧
    (∀ id, ((SparseMemMap.new : SparseMemMap V).set_all m.dump_vector).get_noexcept
      empty_value id = m.get_noexcept empty_value id) ∧
    ((SparseMemMap.new : SparseMemMap V).set_all m.dump_vector).dump_vector
      = m.dump_vector := by
  have hrt : (SparseMemMap.new : SparseMemMap V).set_all m.dump_vector = m := by
    rw [SparseMemMap.dump_vector_eq_range]
    exact SparseMemMap.set_all_range m
  refine ⟨?_, hrt, ?_, ?_, ?_, ?_⟩
  · intro k v
    rw [SparseMemMap.dump_vector_eq_range]
    exact (SparseMemMap.get_eq_ok_iff m k v).symm
  · rw [hrt]
  · intro id; rw [hrt]
  · intro id; rw [hrt]
  · rw [hrt]

/-- C16. The member `get_noexcept` cannot tell an absent identifier from a
stored empty value: for every index state and identifier, `get_noexcept id` is
the empty value if and only if `id` is absent or the value stored for `id` is
the empty value; after `set(id, empty_value)` the entry is stored, `get id`
returns it, `size()` is positive and is one more than before when `id` was
absent, while `get_noexcept id` gives the empty value as it does for an absent
identifier; and when `get_noexcept id` is not the empty value, `get id`
returns that same value. -/
theorem get_noexcept_absent_or_empty {V : Type} (empty_value : V) (m : SparseMemMap V)
    (id : TId) :
    (m.get_noexcept empty_value id = empty_value ↔
      ((¬ ∃ v, (id, v) ∈ m.m_elements.range) ∨ (id, empty_value) ∈ m.m_elements.range)) ∧
    (m.set id empty_value).get id = .ok empty_value ∧
    (id, empty_value) ∈ (m.set id empty_value).m_elements.range ∧
    0 < (m.set id empty_value).size ∧
    (m.set id empty_value).get_noexcept empty_value id = empty_value ∧
    ((¬ ∃ v, (id, v) ∈ m.m_elements.range) →
      (m.set id empty_value).size = m.size + 1 ∧
      m.get_noexcept empty_value id
        = (m.set id empty_value).get_noexcept empty_value id) ∧
    (m.get_noexcept empty_value id ≠ empty_value →
      m.get id = .ok (m.get_noexcept empty_value id)) := by
  have hset : (m.set id empty_value).get id = .ok empty_value :=
    SparseMemMap.get_set_same m id empty_value
  have hmem : (id, empty_value) ∈ (m.set id empty_value).m_elements.range :=
    (SparseMemMap.get_eq_ok_iff _ id empty_value).1 hset
  have hcases : (∃ x, m.get id = .error x) ∨ (∃ w, m.get id = .ok w) := by
    cases h : m.get id with
    | error x => exact Or.inl ⟨x, rfl⟩
    | ok w => exact Or.inr ⟨w, rfl⟩
  refine ⟨?_, hset, hmem, ?_, SparseMemMap.get_noexcept_set_same _ m id empty_value, ?_, ?_⟩
  · rcases hcases with ⟨x, hx⟩ | ⟨w, hw⟩
    · have habs := ((SparseMemMap.get_eq_error_iff m id x).1 hx).2
      rw [SparseMemMap.get_noexcept_of_get_error empty_value m id x hx]
      exact ⟨fun _ => Or.inl ((SparseMemMap.not_mem_keys_iff m id).1 habs), fun _ => rfl⟩
    · rw [SparseMemMap.get_noexcept_of_get_ok empty_value m id w hw]
      have hwm : (id, w) ∈ m.m_elements.range := (SparseMemMap.get_eq_ok_iff m id w).1 hw
      constructor
      · intro he
        rw [he] at hwm
        exact Or.inr hwm
      · rintro (habs | hmem2)
        · exact absurd ⟨w, hwm⟩ habs
        · have h2 := (SparseMemMap.get_eq_ok_iff m id empty_value).2 hmem2
          rw [hw] at h2
          exact Except.ok.inj h2
  · show 0 < List.length (m.set id empty_value).m_elements.nodes
    exact List.length_pos_of_mem hmem
  · intro habs
    have hk := (SparseMemMap.not_mem_keys_iff m id).2 habs
    refine ⟨SparseMemMap.size_set_of_not_mem m id empty_value hk, ?_⟩
    rw [SparseMemMap.get_noexcept_set_same,
      SparseMemMap.get_noexcept_of_get_error empty_value m id ⟨id⟩
        ((SparseMemMap.get_eq_error_iff m id ⟨id⟩).2 ⟨rfl, hk⟩)]
  · intro hne
    rcases hcases with ⟨x, hx⟩ | ⟨w, hw⟩
    · exact absurd (SparseMemMap.get_noexcept_of_get_error empty_value m id x hx) hne
    · rw [SparseMemMap.get_noexcept_of_get_ok empty_value m id w hw]
      exact hw

/-- Witness of C16: the index holding `(3, 8)` with empty value 0: the absent
identifier 4 gets the empty value stored, and the identifier 3 holds a value
other than the empty one. -/
theorem get_noexcept_absent_or_empty_witness :
    (¬ ∃ v, (4, v) ∈ ((SparseMemMap.new : SparseMemMap Nat).set 3 8).m_elements.range) ∧
    ((((SparseMemMap.new : SparseMemMap Nat).set 3 8).set 4 0).size
        = ((SparseMemMap.new : SparseMemMap Nat).set 3 8).size + 1 ∧
      ((SparseMemMap.new : SparseMemMap Nat).set 3 8).get_noexcept 0 4
        = (((SparseMemMap.new : SparseMemMap Nat).set 3 8).set 4 0).get_noexcept 0 4) ∧
    ((SparseMemMap.new : SparseMemMap Nat).set 3 8).get_noexcept 0 3 ≠ 0 ∧
    ((SparseMemMap.new : SparseMemMap Nat).set 3 8).get 3
      = .ok (((SparseMemMap.new : SparseMemMap Nat).set 3 8).get_noexcept 0 3) :=
  ⟨by simp [SparseMemMap.set, SparseMemMap.new, StdMap.assign, StdMap.empty, StdMap.range,
      assignNodes],
    (get_noexcept_absent_or_empty 0 ((SparseMemMap.new : SparseMemMap Nat).set 3 8)
      4).2.2.2.2.2.1
      (by simp [SparseMemMap.set, SparseMemMap.new, StdMap.assign, StdMap.empty,
        StdMap.range, assignNodes]),
    by decide,
    (get_noexcept_absent_or_empty 0 ((SparseMemMap.new : SparseMemMap Nat).set 3 8)
      3).2.2.2.2.2.2 (by decide)⟩

end osmium.index.map
